import Mathlib

/-!
Verification of the TrueCount blackjack decision engine
(src/true-count-terminal/src/TrueCountTerminal.js).

The engine is embedded shallowly: JS numbers become rationals (all the
engine's constants are decimal fractions and every operation it performs
on them is addition, subtraction, multiplication, division, floor, min
and max, all exact over ℚ), card ranks become an inductive type, the
shoe object becomes a function from ranks to natural-number counts, and
the abort paths of fallible operations become `Except` errors.
-/

namespace TrueCount

/-- The thirteen card ranks, in the order of the source's `CARD_VALUES`
array `['A','2','3','4','5','6','7','8','9','10','J','Q','K']`. -/
inductive Rank
  | ace | r2 | r3 | r4 | r5 | r6 | r7 | r8 | r9 | r10 | jack | queen | king
deriving DecidableEq, Inhabited

open Rank

/-- The source's `CARD_VALUES` iteration order, used wherever the code
iterates over the keys of the deck object (JS objects preserve insertion
order, and `initializeDeck` inserts in `CARD_VALUES` order). -/
def RANKS : List Rank :=
  [ace, r2, r3, r4, r5, r6, r7, r8, r9, r10, jack, queen, king]

/-- A shoe (the source's `deck` object): a per-rank remaining count. -/
def Shoe : Type := Rank → ℕ

/-- `initializeDeck`: every rank starts at 24 (six decks × four suits). -/
def initializeDeck : Shoe := fun _ => 24

/-- `getCardValue(card, isAce11 = true)`. -/
def getCardValue (card : Rank) (isAce11 : Bool := true) : ℕ :=
  match card with
  | ace => if isAce11 then 11 else 1
  | jack => 10 | queen => 10 | king => 10
  | r2 => 2 | r3 => 3 | r4 => 4 | r5 => 5
  | r6 => 6 | r7 => 7 | r8 => 8 | r9 => 9 | r10 => 10

/-- Result record of `evaluateHand`. -/
structure HandEval where
  total : ℕ
  isSoft : Bool
  isBlackjack : Bool
  isBust : Bool
deriving DecidableEq

/-- The `while (total > 21 && aces > 0) { total -= 10; aces--; }` loop of
`evaluateHand`, structurally recursive on the number of flexible aces.
Returns the adjusted total together with the remaining flexible aces. -/
def adjustAces (total : ℕ) : ℕ → ℕ × ℕ
  | 0 => (total, 0)
  | a + 1 => if 21 < total then adjustAces (total - 10) a else (total, a + 1)

/-- `evaluateHand(cards)`: each card contributes its value with aces as 11,
then aces are demoted while the total exceeds 21. -/
def evaluateHand (cards : List Rank) : HandEval :=
  let rawTotal := (cards.map (fun c => getCardValue c)).sum
  let rawAces := cards.count ace
  let adjusted := adjustAces rawTotal rawAces
  let total := adjusted.1
  let aces := adjusted.2
  { total := total
    isSoft := decide (0 < aces) && decide (total ≤ 21)
    isBlackjack := decide (cards.length = 2) && decide (total = 21)
    isBust := decide (21 < total) }

/-- `Object.values(deck).reduce((sum, count) => sum + count, 0)`:
the total number of cards remaining in the shoe. -/
def remainingTotal (deck : Shoe) : ℕ := (RANKS.map deck).sum

/-- Result record of `calculateProbabilities`. -/
structure ProbEstimate where
  winProb : ℚ
  lossProb : ℚ
  pushProb : ℚ
  dealerBustProb : ℚ
deriving DecidableEq

/-- The `dealerBustProbabilities` lookup table indexed by the dealer
up-card's blackjack value, with the source's `|| 0.23` default. -/
def dealerBustBase (v : ℕ) : ℚ :=
  if v = 2 then 0.35 else if v = 3 then 0.37 else if v = 4 then 0.40
  else if v = 5 then 0.42 else if v = 6 then 0.42 else if v = 7 then 0.26
  else if v = 8 then 0.24 else if v = 9 then 0.23 else if v = 10 then 0.23
  else if v = 11 then 0.17 else 0.23

/-- `calculateProbabilities(playerCards, dealerUpCard, deck)`. -/
def calculateProbabilities (playerCards : List Rank) (dealerUpCard : Rank)
    (deck : Shoe) : ProbEstimate :=
  let totalRemaining := remainingTotal deck
  if totalRemaining = 0 then
    { winProb := 0, lossProb := 1, pushProb := 0, dealerBustProb := 0 }
  else
    let playerHand := evaluateHand playerCards
    let dealerCardValue := getCardValue dealerUpCard
    let lowCards : ℚ :=
      ((deck r2 + deck r3 + deck r4 + deck r5 + deck r6 : ℕ) : ℚ) / (totalRemaining : ℚ)
    let highCards : ℚ :=
      ((deck r10 + deck jack + deck queen + deck king + deck ace : ℕ) : ℚ) / (totalRemaining : ℚ)
    let adjusted := dealerBustBase dealerCardValue + (lowCards - highCards) * 0.1
    let dealerBustProb := max 0.1 (min 0.6 adjusted)
    if playerHand.isBust then
      { winProb := 0, lossProb := 1, pushProb := 0, dealerBustProb := dealerBustProb }
    else if playerHand.isBlackjack then
      let dealerBlackjackProb : ℚ :=
        if dealerUpCard = ace then 0.31 else if dealerCardValue = 10 then 0.08 else 0
      { winProb := 1 - dealerBlackjackProb, lossProb := 0,
        pushProb := dealerBlackjackProb, dealerBustProb := dealerBustProb }
    else
      let playerTotal := playerHand.total
      let winProb : ℚ :=
        if 17 ≤ playerTotal then dealerBustProb + (1 - dealerBustProb) * 0.4
        else if 12 ≤ playerTotal then dealerBustProb + (1 - dealerBustProb) * 0.2
        else dealerBustProb * 0.5
      { winProb := winProb, lossProb := 1 - winProb - 0.1, pushProb := 0.1,
        dealerBustProb := dealerBustProb }

/-- The four player actions. -/
inductive Action
  | STAND | HIT | DOUBLE | SPLIT
deriving DecidableEq, Inhabited

/-- The stand expected value `probs.winProb * 1 + probs.lossProb * (-1) +
probs.pushProb * 0`, computed identically for `standEV` and `newStandEV`
in `getStrategyRecommendation`. -/
def standEVof (probs : ProbEstimate) : ℚ :=
  probs.winProb * 1 + probs.lossProb * (-1) + probs.pushProb * 0

/-- One iteration of the hit-EV loop body for a rank with positive count:
the amount added to `hitEV` when simulating the draw of `card`. -/
def hitContribution (playerCards : List Rank) (dealerUpCard : Rank)
    (deck : Shoe) (totalRemaining : ℕ) (standEV : ℚ) (card : Rank) : ℚ :=
  let newCards := playerCards ++ [card]
  let newHand := evaluateHand newCards
  let cardProb : ℚ := (deck card : ℚ) / (totalRemaining : ℚ)
  if newHand.isBust then cardProb * (-1 - standEV)
  else
    let newDeck := Function.update deck card (deck card - 1)
    let newProbs := calculateProbabilities newCards dealerUpCard newDeck
    let newStandEV := standEVof newProbs
    cardProb * (newStandEV - standEV)

/-- The hit-EV computation of `getStrategyRecommendation`: starts from
`standEV` and, when the player total is below 21, accumulates over the
deck's entries (skipping ranks with zero count, as the source's
`if (count > 0)` does). -/
def computeHitEV (playerCards : List Rank) (dealerUpCard : Rank)
    (deck : Shoe) (standEV : ℚ) : ℚ :=
  if (evaluateHand playerCards).total < 21 then
    RANKS.foldl
      (fun acc card =>
        if 0 < deck card then
          acc + hitContribution playerCards dealerUpCard deck
            (remainingTotal deck) standEV card
        else acc)
      standEV
  else standEV

/-- Stable insertion into a descending-by-EV list: the element being
inserted came earlier in the original order, so it goes before every
element whose EV does not exceed its own.  This mirrors
`actions.sort((a, b) => b.ev - a.ev)` (JS `sort` is stable). -/
def insertDescBy (x : Action × ℚ) : List (Action × ℚ) → List (Action × ℚ)
  | [] => [x]
  | y :: ys => if y.2 ≤ x.2 then x :: y :: ys else y :: insertDescBy x ys

/-- Stable descending-by-EV sort of the eligible-action list. -/
def sortDescBy : List (Action × ℚ) → List (Action × ℚ)
  | [] => []
  | x :: xs => insertDescBy x (sortDescBy xs)

/-- Result record of `getStrategyRecommendation`.  `expectedValues` is the
object built from the sorted action list, modelled as a finite map from
action name to EV (absent key = action excluded). -/
structure StrategyRec where
  recommendedAction : Action
  expectedValues : Action → Option ℚ
  standEV : ℚ
  hitEV : ℚ

/-- The filtered eligible-action list of `getStrategyRecommendation`, in
the source's input order STAND, HIT, DOUBLE, SPLIT.  The source's
`-Infinity` sentinel plus `filter` combination is modelled by
conditionally including the DOUBLE and SPLIT entries: `standEV` and
`hitEV` are finite rationals, so an entry survives the filter exactly
when its eligibility flag is set. -/
def actionEntries (standEV hitEV : ℚ) (canDouble canSplit : Bool) :
    List (Action × ℚ) :=
  [(Action.STAND, standEV), (Action.HIT, hitEV)]
    ++ (if canDouble then [(Action.DOUBLE, hitEV * 2)] else [])
    ++ (if canSplit then [(Action.SPLIT, standEV * 0.9)] else [])

/-- `getStrategyRecommendation(playerCards, dealerUpCard, deck, canDouble,
canSplit)`. -/
def getStrategyRecommendation (playerCards : List Rank) (dealerUpCard : Rank)
    (deck : Shoe) (canDouble : Bool := true) (canSplit : Bool := false) :
    StrategyRec :=
  let probs := calculateProbabilities playerCards dealerUpCard deck
  let standEV := standEVof probs
  let hitEV := computeHitEV playerCards dealerUpCard deck standEV
  let actions := actionEntries standEV hitEV canDouble canSplit
  let sorted := sortDescBy actions
  { recommendedAction := sorted.headI.1
    expectedValues := fun a => (sorted.find? (fun q => q.1 == a)).map Prod.snd
    standEV := standEV
    hitEV := hitEV }

/-- Result record of `calculateOptimalBetForNextRound`. -/
structure BetRec where
  kellyFraction : ℚ
  recommendedBet : ℤ
  betPercentage : ℚ
deriving DecidableEq

/-- The engine's error taxonomy. -/
inductive EngineError
  | DepletedRankError
  | InvalidBankrollError
deriving DecidableEq

/-- `calculateOptimalBetForNextRound(bankroll, winProb, lossProb, payout=1)`.
The source body has no `throw` and no bankroll check, so no input reaches
the `Except.error` branch of this codomain. -/
def calculateOptimalBetForNextRound (bankroll winProb lossProb : ℚ)
    (payout : ℚ := 1) : Except EngineError BetRec :=
  let p := winProb
  let q := lossProb
  let b := payout
  let kelly := (b * p - q) / b
  let fractionalKelly := kelly * 0.5
  let betSize : ℤ := max 1 (min 500 ⌊fractionalKelly * bankroll⌋)
  .ok { kellyFraction := kelly
        recommendedBet := betSize
        betPercentage := ((betSize : ℚ) / bankroll) * 100 }

/-- The deck-mutation part of the `addCard` handler:
`if (deck[card] <= 0) return;` aborts (modelled as the spec's
`DepletedRankError`), otherwise the new deck is
`{ ...deck, [card]: deck[card] - 1 }`. -/
def draw (deck : Shoe) (card : Rank) : Except EngineError Shoe :=
  if deck card ≤ 0 then .error .DepletedRankError
  else .ok (Function.update deck card (deck card - 1))

/-! ### Helper lemmas -/

/-- Closed form of the ace-demotion loop: it subtracts 10 for each demoted
ace, demoting the minimum of the available aces and the number of
demotions required to bring the total to 21 or below. -/
lemma adjustAces_fst (a t : ℕ) :
    (adjustAces t a).1 = t - 10 * min a (if t ≤ 21 then 0 else (t - 12) / 10) := by
  induction a generalizing t with
  | zero => simp [adjustAces]
  | succ a ih =>
    rw [adjustAces]
    by_cases h : 21 < t
    · rw [if_pos h, ih]
      split_ifs <;> omega
    · rw [if_neg h, if_pos (by omega)]
      omega

/-! ### Claim theorems -/

/-- C8: `evaluateHand` counts each ace as 11 and then, while the total
exceeds 21 and a flexible ace remains, subtracts 10 per demoted ace (so
the final total is the raw ace-as-11 sum minus 10 for each of the
`min(aces, demotions needed)` demoted aces); the empty sequence yields
total 0, not bust, not blackjack; `["A","A"]` gives total 12, soft, not
blackjack, not bust; `["10","K"]` gives total 20, not blackjack;
`["A","K"]` gives total 21, blackjack; `["K","Q","5"]` gives total 25,
bust and not soft. -/
theorem evaluateHand_spec :
    (∀ cards : List Rank,
      (evaluateHand cards).total =
        (cards.map (fun c => getCardValue c)).sum -
          10 * min (cards.count Rank.ace)
            (if (cards.map (fun c => getCardValue c)).sum ≤ 21 then 0
             else ((cards.map (fun c => getCardValue c)).sum - 12) / 10))
    ∧ evaluateHand [] = ⟨0, false, false, false⟩
    ∧ evaluateHand [Rank.ace, Rank.ace] = ⟨12, true, false, false⟩
    ∧ evaluateHand [Rank.r10, Rank.king] = ⟨20, false, false, false⟩
    ∧ evaluateHand [Rank.ace, Rank.king] = ⟨21, true, true, false⟩
    ∧ evaluateHand [Rank.king, Rank.queen, Rank.r5] = ⟨25, false, false, true⟩ := by
  refine ⟨fun cards => ?_, by decide, by decide, by decide, by decide, by decide⟩
  simp only [evaluateHand]
  exact adjustAces_fst _ _

/-- C9: the hand total depends only on the multiset of ranks: any
permutation of a card sequence evaluates to the same total. -/
theorem evaluateHand_total_perm (l₁ l₂ : List Rank) (h : l₁.Perm l₂) :
    (evaluateHand l₁).total = (evaluateHand l₂).total := by
  simp only [evaluateHand]
  rw [(h.map (fun c => getCardValue c)).sum_eq, h.count_eq]

/-- Witness for C9 at a concrete permutation pair. -/
theorem evaluateHand_total_perm_witness :
    (evaluateHand [Rank.ace, Rank.king, Rank.r5]).total =
      (evaluateHand [Rank.r5, Rank.ace, Rank.king]).total :=
  evaluateHand_total_perm _ _ (by decide)

/-- C6: on a shoe with no cards remaining, `calculateProbabilities`
returns exactly the degenerate estimate `{win 0, loss 1, push 0,
dealer bust 0}`, whatever the player hand and dealer up-card. -/
theorem calculateProbabilities_emptyShoe (playerCards : List Rank)
    (dealerUpCard : Rank) (deck : Shoe) (h : remainingTotal deck = 0) :
    calculateProbabilities playerCards dealerUpCard deck =
      ⟨0, 1, 0, 0⟩ := by
  rw [calculateProbabilities, if_pos h]

/-- Witness for C6 at the all-zero shoe. -/
theorem calculateProbabilities_emptyShoe_witness :
    calculateProbabilities [Rank.r10, Rank.r6] Rank.r5 (fun _ => 0) =
      ⟨0, 1, 0, 0⟩ :=
  calculateProbabilities_emptyShoe _ _ _ (by decide)

/-- The clamp `Math.max(0.1, Math.min(0.6, x))` always lands in
[1/10, 3/5]. -/
lemma clamp_dealerBust_mem (x : ℚ) :
    1 / 10 ≤ max 0.1 (min 0.6 x) ∧ max 0.1 (min 0.6 x) ≤ 3 / 5 := by
  constructor
  · calc (1 / 10 : ℚ) = 0.1 := by norm_num
    _ ≤ max 0.1 (min 0.6 x) := le_max_left _ _
  · refine max_le (by norm_num) ((min_le_left _ _).trans (by norm_num))

/-- On any shoe with at least one card remaining, the dealer-bust estimate
is the clamped richness-adjusted base rate, whatever the branch taken for
the win/loss/push triple. -/
lemma dealerBustProb_eq (playerCards : List Rank) (dealerUpCard : Rank)
    (deck : Shoe) (h : 0 < remainingTotal deck) :
    (calculateProbabilities playerCards dealerUpCard deck).dealerBustProb =
      max 0.1 (min 0.6 (dealerBustBase (getCardValue dealerUpCard) +
        ((((deck Rank.r2 + deck Rank.r3 + deck Rank.r4 + deck Rank.r5 +
            deck Rank.r6 : ℕ) : ℚ) / (remainingTotal deck : ℚ)) -
         (((deck Rank.r10 + deck Rank.jack + deck Rank.queen +
            deck Rank.king + deck Rank.ace : ℕ) : ℚ) /
              (remainingTotal deck : ℚ))) * 0.1)) := by
  rw [calculateProbabilities, if_neg (by omega)]
  dsimp only
  split_ifs <;> rfl

/-- C7 counterexample: the claim quantifies over every shoe, but on the
empty shoe `calculateProbabilities` returns `dealerBustProb = 0`, outside
[0.10, 0.60]. -/
theorem dealerBustProb_range_cex :
    ¬ (1 / 10 ≤ (calculateProbabilities [] Rank.ace (fun _ => 0)).dealerBustProb ∧
       (calculateProbabilities [] Rank.ace (fun _ => 0)).dealerBustProb ≤ 3 / 5) := by
  rw [calculateProbabilities, if_pos (by decide)]
  norm_num

/-- C7 amended: for every player hand, dealer up-card, and shoe with a
positive remaining total, the returned `dealerBustProb` — the up-card
base rate adjusted by `(lowFraction − highFraction) × 0.1` and clamped —
lies in [0.10, 0.60]. -/
theorem dealerBustProb_range (playerCards : List Rank) (dealerUpCard : Rank)
    (deck : Shoe) (h : 0 < remainingTotal deck) :
    1 / 10 ≤ (calculateProbabilities playerCards dealerUpCard deck).dealerBustProb ∧
      (calculateProbabilities playerCards dealerUpCard deck).dealerBustProb ≤ 3 / 5 := by
  rw [dealerBustProb_eq playerCards dealerUpCard deck h]
  exact clamp_dealerBust_mem _

/-- Witness for C7 (amended) on the full six-deck shoe. -/
theorem dealerBustProb_range_witness :
    1 / 10 ≤ (calculateProbabilities [Rank.r10, Rank.r6] Rank.r5
        initializeDeck).dealerBustProb ∧
      (calculateProbabilities [Rank.r10, Rank.r6] Rank.r5
        initializeDeck).dealerBustProb ≤ 3 / 5 :=
  dealerBustProb_range _ _ _ (by decide)

/-- C2: drawing a rank with zero remaining count fails with
`DepletedRankError` (the shoe value passed in is of course untouched:
the operation returns no new shoe at all); drawing a rank with a positive
count yields a shoe in which that rank's count has dropped by exactly one
and every other rank is unchanged. -/
theorem draw_spec (deck : Shoe) (r : Rank) :
    (deck r = 0 → draw deck r = .error .DepletedRankError) ∧
    (0 < deck r → ∃ s', draw deck r = .ok s' ∧ s' r = deck r - 1 ∧
      ∀ q, q ≠ r → s' q = deck q) := by
  constructor
  · intro h
    rw [draw, if_pos (by omega)]
  · intro h
    refine ⟨Function.update deck r (deck r - 1), ?_, ?_, ?_⟩
    · rw [draw, if_neg (by omega)]
    · exact Function.update_same r _ deck
    · intro q hq
      exact Function.update_noteq hq _ deck

/-- A shoe with the ace rank depleted and 24 of everything else, used to
exercise both branches of `draw_spec`. -/
def aceDepletedShoe : Shoe := fun r => if r = Rank.ace then 0 else 24

/-- Witness for C2: on `aceDepletedShoe`, drawing an ace fails with
`DepletedRankError` while drawing a two succeeds and decrements only the
twos. -/
theorem draw_spec_witness :
    (draw aceDepletedShoe Rank.ace = .error .DepletedRankError) ∧
    (∃ s', draw aceDepletedShoe Rank.r2 = .ok s' ∧
      s' Rank.r2 = aceDepletedShoe Rank.r2 - 1 ∧
      ∀ q, q ≠ Rank.r2 → s' q = aceDepletedShoe q) :=
  ⟨(draw_spec aceDepletedShoe Rank.ace).1 (by decide),
   (draw_spec aceDepletedShoe Rank.r2).2 (by decide)⟩

/-- C1 counterexample: `calculateOptimalBetForNextRound(0, 0.5, 0.5)` does
not fail — the source performs no bankroll validation — and instead
returns kelly fraction 0 with the floor bet of 1.  (The `betPercentage`
division by the zero bankroll is JS `Infinity`; nothing here depends on
that field.) -/
theorem calculateOptimalBet_zeroBankroll_cex :
    (calculateOptimalBetForNextRound 0 (1 / 2) (1 / 2) 1).isOk = true ∧
    (calculateOptimalBetForNextRound 0 (1 / 2) (1 / 2) 1).toOption.map
        BetRec.kellyFraction = some 0 ∧
    (calculateOptimalBetForNextRound 0 (1 / 2) (1 / 2) 1).toOption.map
        BetRec.recommendedBet = some 1 := by
  refine ⟨rfl, ?_, ?_⟩ <;>
    simp only [calculateOptimalBetForNextRound, Except.toOption, Option.map] <;>
    norm_num

/-- C1 amended: `calculateOptimalBetForNextRound` never fails — it has no
bankroll check — and for every bankroll (zero and negative included) it
succeeds with a recommended bet clamped into [1, 500]. -/
theorem calculateOptimalBet_total (bankroll winProb lossProb payout : ℚ) :
    ∃ r, calculateOptimalBetForNextRound bankroll winProb lossProb payout =
        .ok r ∧ 1 ≤ r.recommendedBet ∧ r.recommendedBet ≤ 500 := by
  refine ⟨_, rfl, le_max_left _ _, ?_⟩
  exact max_le (by norm_num) ((min_le_left _ _))

/-- C5: for every positive bankroll and payout, the bet sizer succeeds
with `kellyFraction = (payout·winProb − lossProb)/payout`, a recommended
bet equal to the floor of half the Kelly fraction times the bankroll
clamped into [1, 500], and `betPercentage = 100·recommendedBet/bankroll`;
in particular `sizeNextBet(1000, 0.5, 0.5, 1)` gives kelly 0, bet 1 and
percentage 0.1, and `sizeNextBet(1000, 0.9, 0.1, 1)` gives kelly 0.8,
bet 400 and percentage 40. -/
theorem calculateOptimalBet_spec (bankroll winProb lossProb payout : ℚ)
    (hb : 0 < bankroll) (hp : 0 < payout) :
    (∃ r, calculateOptimalBetForNextRound bankroll winProb lossProb payout =
        .ok r ∧
      r.kellyFraction = (payout * winProb - lossProb) / payout ∧
      r.recommendedBet =
        max 1 (min 500 ⌊(1 / 2) * ((payout * winProb - lossProb) / payout) *
          bankroll⌋) ∧
      r.betPercentage = 100 * (r.recommendedBet : ℚ) / bankroll) ∧
    calculateOptimalBetForNextRound 1000 (1 / 2) (1 / 2) 1 =
      .ok ⟨0, 1, 1 / 10⟩ ∧
    calculateOptimalBetForNextRound 1000 (9 / 10) (1 / 10) 1 =
      .ok ⟨4 / 5, 400, 40⟩ := by
  refine ⟨⟨_, rfl, rfl, ?_, ?_⟩, ?_, ?_⟩
  · ring_nf
  · dsimp only
    ring
  · simp only [calculateOptimalBetForNextRound]
    norm_num
  · simp only [calculateOptimalBetForNextRound]
    norm_num

/-- Witness for C5 at bankroll 1000 and even probabilities. -/
theorem calculateOptimalBet_spec_witness :
    (∃ r, calculateOptimalBetForNextRound 1000 (1 / 2) (1 / 2) 1 =
        .ok r ∧
      r.kellyFraction = ((1 : ℚ) * (1 / 2) - 1 / 2) / 1 ∧
      r.recommendedBet =
        max 1 (min 500 ⌊(1 / 2) * (((1 : ℚ) * (1 / 2) - 1 / 2) / 1) *
          1000⌋) ∧
      r.betPercentage = 100 * (r.recommendedBet : ℚ) / 1000) ∧
    calculateOptimalBetForNextRound 1000 (1 / 2) (1 / 2) 1 =
      .ok ⟨0, 1, 1 / 10⟩ ∧
    calculateOptimalBetForNextRound 1000 (9 / 10) (1 / 10) 1 =
      .ok ⟨4 / 5, 400, 40⟩ :=
  calculateOptimalBet_spec 1000 (1 / 2) (1 / 2) 1 (by norm_num) (by norm_num)

/-- Abstract form of the live-hand branch of `calculateProbabilities`:
for any clamped dealer-bust value `D` and any of the three tiered win
probabilities `w`, the triple `(w, 1 − w − 0.1, 0.1)` sums to 1 and each
component lies in [0, 1]. -/
lemma live_branch_props (D w : ℚ) (hD1 : 1 / 10 ≤ D) (hD2 : D ≤ 3 / 5)
    (hw : w = D + (1 - D) * 0.4 ∨ w = D + (1 - D) * 0.2 ∨ w = D * 0.5) :
    w + (1 - w - 0.1) + 0.1 = 1 ∧
      0 ≤ w ∧ w ≤ 1 ∧ 0 ≤ 1 - w - 0.1 ∧ 1 - w - 0.1 ≤ 1 ∧
      (0 : ℚ) ≤ 0.1 ∧ (0.1 : ℚ) ≤ 1 := by
  have h01 : (0.1 : ℚ) = 1 / 10 := by norm_num
  have h02 : (0.2 : ℚ) = 1 / 5 := by norm_num
  have h04 : (0.4 : ℚ) = 2 / 5 := by norm_num
  have h05 : (0.5 : ℚ) = 1 / 2 := by norm_num
  rcases hw with hw | hw | hw <;> subst hw <;>
    simp only [h01, h02, h04, h05] <;>
    refine ⟨by ring, by nlinarith, by nlinarith, by nlinarith, by nlinarith,
      by norm_num, by norm_num⟩

/-- C10: whenever the shoe still has cards, the estimated win, loss and
push probabilities sum to exactly 1 (the live branch sets
`loss = 1 − win − push`, the bust and blackjack branches are exact), and
each of the three lies in [0, 1]. -/
theorem calculateProbabilities_triple (playerCards : List Rank)
    (dealerUpCard : Rank) (deck : Shoe) (h : 0 < remainingTotal deck) :
    (calculateProbabilities playerCards dealerUpCard deck).winProb +
        (calculateProbabilities playerCards dealerUpCard deck).lossProb +
        (calculateProbabilities playerCards dealerUpCard deck).pushProb = 1 ∧
      0 ≤ (calculateProbabilities playerCards dealerUpCard deck).winProb ∧
      (calculateProbabilities playerCards dealerUpCard deck).winProb ≤ 1 ∧
      0 ≤ (calculateProbabilities playerCards dealerUpCard deck).lossProb ∧
      (calculateProbabilities playerCards dealerUpCard deck).lossProb ≤ 1 ∧
      0 ≤ (calculateProbabilities playerCards dealerUpCard deck).pushProb ∧
      (calculateProbabilities playerCards dealerUpCard deck).pushProb ≤ 1 := by
  rw [calculateProbabilities, if_neg (by omega)]
  dsimp only
  split_ifs <;>
    first
    | exact live_branch_props _ _ (clamp_dealerBust_mem _).1
        (clamp_dealerBust_mem _).2 (Or.inl rfl)
    | exact live_branch_props _ _ (clamp_dealerBust_mem _).1
        (clamp_dealerBust_mem _).2 (Or.inr (Or.inl rfl))
    | exact live_branch_props _ _ (clamp_dealerBust_mem _).1
        (clamp_dealerBust_mem _).2 (Or.inr (Or.inr rfl))
    | norm_num

/-- Witness for C10 on a live hand against the full six-deck shoe. -/
theorem calculateProbabilities_triple_witness :
    (calculateProbabilities [Rank.r10, Rank.r6] Rank.r5
          initializeDeck).winProb +
        (calculateProbabilities [Rank.r10, Rank.r6] Rank.r5
          initializeDeck).lossProb +
        (calculateProbabilities [Rank.r10, Rank.r6] Rank.r5
          initializeDeck).pushProb = 1 ∧
      0 ≤ (calculateProbabilities [Rank.r10, Rank.r6] Rank.r5
          initializeDeck).winProb ∧
      (calculateProbabilities [Rank.r10, Rank.r6] Rank.r5
          initializeDeck).winProb ≤ 1 ∧
      0 ≤ (calculateProbabilities [Rank.r10, Rank.r6] Rank.r5
          initializeDeck).lossProb ∧
      (calculateProbabilities [Rank.r10, Rank.r6] Rank.r5
          initializeDeck).lossProb ≤ 1 ∧
      0 ≤ (calculateProbabilities [Rank.r10, Rank.r6] Rank.r5
          initializeDeck).pushProb ∧
      (calculateProbabilities [Rank.r10, Rank.r6] Rank.r5
          initializeDeck).pushProb ≤ 1 :=
  calculateProbabilities_triple _ _ _ (by decide)

/-- Accumulating a guarded contribution over a list, as the hit-EV loop
does, equals the starting value plus the sum of the contributions of the
elements passing the guard. -/
lemma foldl_guard_eq_add_sum (p : Rank → Prop) [DecidablePred p]
    (g : Rank → ℚ) :
    ∀ (l : List Rank) (a : ℚ),
      l.foldl (fun acc c => if p c then acc + g c else acc) a
        = a + ((l.filter fun c => decide (p c)).map g).sum := by
  intro l
  induction l with
  | nil => intro a; simp
  | cons x xs ih =>
    intro a
    by_cases hx : p x
    · simp only [List.foldl_cons, if_pos hx, List.filter_cons, hx,
        decide_true_eq_true, if_true, List.map_cons, List.sum_cons]
      rw [ih]
      ring
    · simp only [List.foldl_cons, if_neg hx, List.filter_cons, hx,
        decide_false_eq_false, if_false]
      rw [ih]
      simp

/-- C3: the recommendation's `standEV` is the estimate's win probability
minus its loss probability, and `hitEV` equals `standEV` when the hand's
total is 21 or more; otherwise it equals `standEV` plus, for every rank
with positive remaining count, the count-over-remaining weight times
`(−1 − standEV)` when drawing that rank busts the hand, and otherwise
times `(newStandEV − standEV)`, where `newStandEV` is the stand EV of
the estimate recomputed for the extended hand against the shoe with one
card of that rank debited. -/
theorem hitEV_spec (playerCards : List Rank) (dealerUpCard : Rank)
    (deck : Shoe) (canDouble canSplit : Bool) (r : StrategyRec)
    (hr : r = getStrategyRecommendation playerCards dealerUpCard deck
      canDouble canSplit) :
    r.standEV = (calculateProbabilities playerCards dealerUpCard deck).winProb -
        (calculateProbabilities playerCards dealerUpCard deck).lossProb ∧
    (21 ≤ (evaluateHand playerCards).total → r.hitEV = r.standEV) ∧
    ((evaluateHand playerCards).total < 21 →
      r.hitEV = r.standEV +
        ((RANKS.filter fun c => decide (0 < deck c)).map fun c =>
          ((deck c : ℚ) / (remainingTotal deck : ℚ)) *
            (if (evaluateHand (playerCards ++ [c])).isBust then
              -1 - r.standEV
             else
              ((calculateProbabilities (playerCards ++ [c]) dealerUpCard
                  (Function.update deck c (deck c - 1))).winProb -
               (calculateProbabilities (playerCards ++ [c]) dealerUpCard
                  (Function.update deck c (deck c - 1))).lossProb) -
                r.standEV)).sum) := by
  subst hr
  have hS : (getStrategyRecommendation playerCards dealerUpCard deck
      canDouble canSplit).standEV =
      standEVof (calculateProbabilities playerCards dealerUpCard deck) := rfl
  have hH : (getStrategyRecommendation playerCards dealerUpCard deck
      canDouble canSplit).hitEV =
      computeHitEV playerCards dealerUpCard deck
        (standEVof (calculateProbabilities playerCards dealerUpCard deck)) := rfl
  rw [hS, hH]
  refine ⟨by rw [standEVof]; ring, ?_, ?_⟩
  · intro h
    rw [computeHitEV, if_neg (by omega)]
  · intro h
    rw [computeHitEV, if_pos h,
      foldl_guard_eq_add_sum (fun c => 0 < deck c)
        (hitContribution playerCards dealerUpCard deck
          (remainingTotal deck)
          (standEVof (calculateProbabilities playerCards dealerUpCard deck)))
        RANKS]
    congr 1
    refine congrArg List.sum (List.map_congr_left ?_)
    intro c _
    rw [hitContribution]
    dsimp only
    split_ifs
    · rfl
    · rw [standEVof]
      ring_nf

/-- Witness for C3: the hit-EV decomposition instantiated on the hand
10-6 against a dealer 5 over the full six-deck shoe. -/
theorem hitEV_spec_witness :
    (getStrategyRecommendation [Rank.r10, Rank.r6] Rank.r5 initializeDeck
        true false).hitEV =
      (getStrategyRecommendation [Rank.r10, Rank.r6] Rank.r5 initializeDeck
          true false).standEV +
        ((RANKS.filter fun c => decide (0 < initializeDeck c)).map fun c =>
          ((initializeDeck c : ℚ) / (remainingTotal initializeDeck : ℚ)) *
            (if (evaluateHand ([Rank.r10, Rank.r6] ++ [c])).isBust then
              -1 - (getStrategyRecommendation [Rank.r10, Rank.r6] Rank.r5
                  initializeDeck true false).standEV
             else
              ((calculateProbabilities ([Rank.r10, Rank.r6] ++ [c]) Rank.r5
                  (Function.update initializeDeck c
                    (initializeDeck c - 1))).winProb -
               (calculateProbabilities ([Rank.r10, Rank.r6] ++ [c]) Rank.r5
                  (Function.update initializeDeck c
                    (initializeDeck c - 1))).lossProb) -
                (getStrategyRecommendation [Rank.r10, Rank.r6] Rank.r5
                    initializeDeck true false).standEV)).sum :=
  (hitEV_spec [Rank.r10, Rank.r6] Rank.r5 initializeDeck true false _
    rfl).2.2 (by decide)

/-- The tie-break priority of the source's input order
`[STAND, HIT, DOUBLE, SPLIT]`: a stable sort keeps a lower-priority-index
action ahead of any equal-EV action that follows it. -/
def prio : Action → ℕ
  | .STAND => 0
  | .HIT => 1
  | .DOUBLE => 2
  | .SPLIT => 3

/-- Inserting into the stable descending sort produces a permutation of
consing. -/
lemma insertDescBy_perm (x : Action × ℚ) (l : List (Action × ℚ)) :
    (insertDescBy x l).Perm (x :: l) := by
  induction l with
  | nil => simp [insertDescBy]
  | cons y ys ih =>
    rw [insertDescBy]
    split_ifs
    · exact List.Perm.refl _
    · exact (List.Perm.cons y ih).trans (List.Perm.swap x y ys)

/-- The stable descending sort permutes its input. -/
lemma sortDescBy_perm (l : List (Action × ℚ)) : (sortDescBy l).Perm l := by
  induction l with
  | nil => exact List.Perm.refl _
  | cons x xs ih =>
    exact (insertDescBy_perm x (sortDescBy xs)).trans (List.Perm.cons x ih)

/-- The element a stable descending sort brings to the front: the first
element in list order attaining the maximal EV. -/
def firstMaxPair : List (Action × ℚ) → Option (Action × ℚ)
  | [] => none
  | x :: xs =>
    some (match firstMaxPair xs with
      | none => x
      | some m => if m.2 ≤ x.2 then x else m)

lemma head?_insertDescBy (x : Action × ℚ) (l : List (Action × ℚ)) :
    (insertDescBy x l).head? =
      some (match l.head? with
        | none => x
        | some y => if y.2 ≤ x.2 then x else y) := by
  cases l with
  | nil => rfl
  | cons y ys =>
    rw [insertDescBy]
    split_ifs with h
    · simp [h]
    · simp [h]

lemma head?_sortDescBy (l : List (Action × ℚ)) :
    (sortDescBy l).head? = firstMaxPair l := by
  induction l with
  | nil => rfl
  | cons x xs ih =>
    rw [sortDescBy, head?_insertDescBy, firstMaxPair, ← ih]

/-- `find?` by key returns the unique pair with that key when the keys
are nodup. -/
lemma find?_key_of_mem (l : List (Action × ℚ)) (a : Action) (v : ℚ)
    (hnd : (l.map Prod.fst).Nodup) (hmem : (a, v) ∈ l) :
    l.find? (fun q => q.1 == a) = some (a, v) := by
  induction l with
  | nil => cases hmem
  | cons x xs ih =>
    rw [List.map_cons, List.nodup_cons] at hnd
    rcases List.mem_cons.mp hmem with h | h
    · subst h
      simp [List.find?_cons]
    · have hxa : x.1 ≠ a := by
        intro he
        exact hnd.1 (he ▸ List.mem_map_of_mem Prod.fst h)
      have hb : (x.1 == a) = false := by simp [hxa]
      rw [List.find?_cons, hb]
      exact ih hnd.2 h

/-- A successful `find?` by key returns a member carrying that key. -/
lemma find?_key_mem (l : List (Action × ℚ)) (a : Action) (p : Action × ℚ)
    (h : l.find? (fun q => q.1 == a) = some p) : p ∈ l ∧ p.1 = a := by
  induction l with
  | nil => cases h
  | cons x xs ih =>
    rw [List.find?_cons] at h
    by_cases hx : x.1 = a
    · have hb : (x.1 == a) = true := by simp [hx]
      rw [hb] at h
      have hxp : x = p := by
        have : some x = some p := h
        injection this
      exact ⟨hxp ▸ List.mem_cons_self _ _, hxp ▸ hx⟩
    · have hb : (x.1 == a) = false := by simp [hx]
      rw [hb] at h
      have h' : List.find? (fun q => q.1 == a) xs = some p := h
      exact ⟨List.mem_cons_of_mem _ (ih h').1, (ih h').2⟩

/-- Sorting does not change a `find?`-by-key lookup when keys are nodup:
the object the source builds from the sorted list holds the same
key-to-EV mapping as the unsorted eligible-action list. -/
lemma find?_key_sortDescBy (l : List (Action × ℚ)) (a : Action)
    (hnd : (l.map Prod.fst).Nodup) :
    (sortDescBy l).find? (fun q => q.1 == a) =
      l.find? (fun q => q.1 == a) := by
  have hperm := sortDescBy_perm l
  have hnds : ((sortDescBy l).map Prod.fst).Nodup :=
    ((hperm.map Prod.fst).nodup_iff).mpr hnd
  cases h : l.find? (fun q => q.1 == a) with
  | none =>
    cases hs : (sortDescBy l).find? (fun q => q.1 == a) with
    | none => rfl
    | some p =>
      obtain ⟨hp, hpa⟩ := find?_key_mem _ _ _ hs
      obtain ⟨p1, p2⟩ := p
      subst hpa
      dsimp only at h
      have hcontra := find?_key_of_mem l p1 p2 hnd (hperm.mem_iff.mp hp)
      rw [h] at hcontra
      cases hcontra
  | some p =>
    obtain ⟨hp, hpa⟩ := find?_key_mem _ _ _ h
    obtain ⟨p1, p2⟩ := p
    subst hpa
    dsimp only
    exact find?_key_of_mem _ _ _ hnds (hperm.mem_iff.mpr hp)

/-- `firstMaxPair` on a list whose keys appear in strictly increasing
priority order returns a member that maximises the EV and, among
EV-maximal members, has the least priority. -/
lemma firstMaxPair_spec (l : List (Action × ℚ)) (m : Action × ℚ)
    (hsorted : l.Pairwise (fun p q => prio p.1 < prio q.1))
    (h : firstMaxPair l = some m) :
    m ∈ l ∧ ∀ p ∈ l, p.2 ≤ m.2 ∧ (p.2 = m.2 → prio m.1 ≤ prio p.1) := by
  induction l generalizing m with
  | nil => cases h
  | cons x xs ih =>
    rw [List.pairwise_cons] at hsorted
    rw [firstMaxPair] at h
    cases hm' : firstMaxPair xs with
    | none =>
      rw [hm'] at h
      cases xs with
      | cons y ys => rw [firstMaxPair] at hm'; cases hm'
      | nil =>
        cases h
        refine ⟨List.mem_cons_self _ _, ?_⟩
        intro p hp
        rcases List.mem_cons.mp hp with h | h
        · subst h; exact ⟨le_refl _, fun _ => le_refl _⟩
        · cases h
    | some m' =>
      rw [hm'] at h
      dsimp only at h
      obtain ⟨hm'mem, hm'max⟩ := ih _ hsorted.2 hm'
      by_cases hcmp : m'.2 ≤ x.2
      · rw [if_pos hcmp] at h
        cases h
        refine ⟨List.mem_cons_self _ _, ?_⟩
        intro p hp
        rcases List.mem_cons.mp hp with h | h
        · subst h; exact ⟨le_refl _, fun _ => le_refl _⟩
        · exact ⟨((hm'max p h).1).trans hcmp,
            fun _ => le_of_lt (hsorted.1 p h)⟩
      · rw [if_neg hcmp] at h
        cases h
        refine ⟨List.mem_cons_of_mem _ hm'mem, ?_⟩
        intro p hp
        rcases List.mem_cons.mp hp with h | h
        · subst h
          exact ⟨le_of_lt (lt_of_not_le hcmp),
            fun he => absurd (he ▸ lt_of_not_le hcmp) (lt_irrefl _)⟩
        · exact hm'max p h

/-- `find?` by key misses exactly when the key is absent. -/
lemma find?_key_of_not_mem (l : List (Action × ℚ)) (a : Action)
    (h : a ∉ l.map Prod.fst) : l.find? (fun q => q.1 == a) = none := by
  induction l with
  | nil => rfl
  | cons x xs ih =>
    rw [List.map_cons, List.mem_cons] at h
    push_neg at h
    have hb : (x.1 == a) = false := by
      rw [beq_eq_false_iff_ne]
      exact fun he => h.1 he.symm
    rw [List.find?_cons, hb]
    exact ih h.2

/-- The eligible-action list's keys are nodup for every flag choice. -/
lemma actionEntries_keys_nodup (s h : ℚ) (cD cS : Bool) :
    ((actionEntries s h cD cS).map Prod.fst).Nodup := by
  cases cD <;> cases cS <;> simp [actionEntries]

/-- The eligible-action list carries its keys in strictly increasing
priority order. -/
lemma actionEntries_pairwise (s h : ℚ) (cD cS : Bool) :
    (actionEntries s h cD cS).Pairwise (fun p q => prio p.1 < prio q.1) := by
  cases cD <;> cases cS <;>
    simp [actionEntries, List.pairwise_cons, prio]

lemma headI_eq_of_head? {l : List (Action × ℚ)} {m : Action × ℚ}
    (h : l.head? = some m) : l.headI = m := by
  cases l with
  | nil => cases h
  | cons z zs =>
    have : z = m := by injection h
    rw [← this]
    rfl

/-- The whole recommendation pipeline, generically in the stand and hit
EVs: the lookups of the object built from the stably sorted eligible-action
list give exactly the eligible actions with their EVs, and the head of
the sorted list is an eligible action of maximal EV whose priority is
least among EV ties. -/
lemma strategy_pipeline (s h : ℚ) (cD cS : Bool) :
    ((sortDescBy (actionEntries s h cD cS)).find?
        (fun q => q.1 == Action.STAND)).map Prod.snd = some s ∧
    ((sortDescBy (actionEntries s h cD cS)).find?
        (fun q => q.1 == Action.HIT)).map Prod.snd = some h ∧
    ((sortDescBy (actionEntries s h cD cS)).find?
        (fun q => q.1 == Action.DOUBLE)).map Prod.snd =
      (if cD then some (h * 2) else none) ∧
    ((sortDescBy (actionEntries s h cD cS)).find?
        (fun q => q.1 == Action.SPLIT)).map Prod.snd =
      (if cS then some (s * 0.9) else none) ∧
    ∃ v, ((sortDescBy (actionEntries s h cD cS)).find?
        (fun q => q.1 == (sortDescBy (actionEntries s h cD cS)).headI.1)).map
          Prod.snd = some v ∧
      ∀ a w, ((sortDescBy (actionEntries s h cD cS)).find?
          (fun q => q.1 == a)).map Prod.snd = some w →
        w ≤ v ∧ (w = v →
          prio (sortDescBy (actionEntries s h cD cS)).headI.1 ≤ prio a) := by
  have hnd := actionEntries_keys_nodup s h cD cS
  refine ⟨?_, ?_, ?_, ?_, ?_⟩
  · rw [find?_key_sortDescBy _ _ hnd,
      find?_key_of_mem _ Action.STAND s hnd (by simp [actionEntries])]
    rfl
  · rw [find?_key_sortDescBy _ _ hnd,
      find?_key_of_mem _ Action.HIT h hnd (by simp [actionEntries])]
    rfl
  · cases cD
    · rw [find?_key_sortDescBy _ _ hnd,
        find?_key_of_not_mem _ _ (by cases cS <;> simp [actionEntries])]
      rfl
    · rw [find?_key_sortDescBy _ _ hnd,
        find?_key_of_mem _ Action.DOUBLE (h * 2) hnd
          (by cases cS <;> simp [actionEntries])]
      rfl
  · cases cS
    · rw [find?_key_sortDescBy _ _ hnd,
        find?_key_of_not_mem _ _ (by cases cD <;> simp [actionEntries])]
      rfl
    · rw [find?_key_sortDescBy _ _ hnd,
        find?_key_of_mem _ Action.SPLIT (s * 0.9) hnd
          (by cases cD <;> simp [actionEntries])]
      rfl
  · obtain ⟨m, hm⟩ : ∃ m, firstMaxPair (actionEntries s h cD cS) = some m :=
      ⟨_, rfl⟩
    have hhead : (sortDescBy (actionEntries s h cD cS)).headI = m :=
      headI_eq_of_head? (by rw [head?_sortDescBy, hm])
    obtain ⟨hmem, hmax⟩ :=
      firstMaxPair_spec _ _ (actionEntries_pairwise s h cD cS) hm
    refine ⟨m.2, ?_, ?_⟩
    · rw [hhead, find?_key_sortDescBy _ _ hnd,
        find?_key_of_mem _ m.1 m.2 hnd (by rw [Prod.mk.eta]; exact hmem)]
      rfl
    · intro a w hw
      rw [find?_key_sortDescBy _ _ hnd] at hw
      cases hfind : (actionEntries s h cD cS).find? (fun q => q.1 == a) with
      | none => rw [hfind] at hw; cases hw
      | some p =>
        rw [hfind] at hw
        obtain ⟨hpmem, hpa⟩ := find?_key_mem _ _ _ hfind
        have hw' : p.2 = w := by injection hw
        obtain ⟨hple, hptie⟩ := hmax p hpmem
        subst hw'
        subst hpa
        rw [hhead]
        exact ⟨hple, fun he => hptie he⟩

/-- C4: `expectedValues` contains exactly the eligible actions — STAND
and HIT always, DOUBLE (at twice the hit EV) only when `canDouble`, SPLIT
(at 0.9 times the stand EV) only when `canSplit` — and
`recommendedAction` is an eligible action of maximal expected value whose
priority in the fixed order STAND > HIT > DOUBLE > SPLIT is least among
the actions tied at that value. -/
theorem recommendation_spec (playerCards : List Rank) (dealerUpCard : Rank)
    (deck : Shoe) (canDouble canSplit : Bool) (r : StrategyRec)
    (hr : r = getStrategyRecommendation playerCards dealerUpCard deck
      canDouble canSplit) :
    r.expectedValues Action.STAND = some r.standEV ∧
    r.expectedValues Action.HIT = some r.hitEV ∧
    r.expectedValues Action.DOUBLE =
      (if canDouble then some (r.hitEV * 2) else none) ∧
    r.expectedValues Action.SPLIT =
      (if canSplit then some (r.standEV * 0.9) else none) ∧
    ∃ v, r.expectedValues r.recommendedAction = some v ∧
      ∀ a w, r.expectedValues a = some w →
        w ≤ v ∧ (w = v → prio r.recommendedAction ≤ prio a) := by
  subst hr
  exact strategy_pipeline
    (standEVof (calculateProbabilities playerCards dealerUpCard deck))
    (computeHitEV playerCards dealerUpCard deck
      (standEVof (calculateProbabilities playerCards dealerUpCard deck)))
    canDouble canSplit

/-- Witness for C4: the recommendation contract instantiated for the hand
10-6 against a dealer 5 on the full shoe with neither double nor split
available. -/
theorem recommendation_spec_witness :
    (getStrategyRecommendation [Rank.r10, Rank.r6] Rank.r5 initializeDeck
        false false).expectedValues Action.STAND =
      some (getStrategyRecommendation [Rank.r10, Rank.r6] Rank.r5
        initializeDeck false false).standEV ∧
    (getStrategyRecommendation [Rank.r10, Rank.r6] Rank.r5 initializeDeck
        false false).expectedValues Action.HIT =
      some (getStrategyRecommendation [Rank.r10, Rank.r6] Rank.r5
        initializeDeck false false).hitEV ∧
    (getStrategyRecommendation [Rank.r10, Rank.r6] Rank.r5 initializeDeck
        false false).expectedValues Action.DOUBLE =
      (if false then some ((getStrategyRecommendation [Rank.r10, Rank.r6]
        Rank.r5 initializeDeck false false).hitEV * 2) else none) ∧
    (getStrategyRecommendation [Rank.r10, Rank.r6] Rank.r5 initializeDeck
        false false).expectedValues Action.SPLIT =
      (if false then some ((getStrategyRecommendation [Rank.r10, Rank.r6]
        Rank.r5 initializeDeck false false).standEV * 0.9) else none) ∧
    ∃ v, (getStrategyRecommendation [Rank.r10, Rank.r6] Rank.r5
        initializeDeck false false).expectedValues
          (getStrategyRecommendation [Rank.r10, Rank.r6] Rank.r5
            initializeDeck false false).recommendedAction = some v ∧
      ∀ a w, (getStrategyRecommendation [Rank.r10, Rank.r6] Rank.r5
          initializeDeck false false).expectedValues a = some w →
        w ≤ v ∧ (w = v →
          prio (getStrategyRecommendation [Rank.r10, Rank.r6] Rank.r5
            initializeDeck false false).recommendedAction ≤ prio a) :=
  recommendation_spec [Rank.r10, Rank.r6] Rank.r5 initializeDeck
    false false _ rfl

end TrueCount
